import Mathlib

/-!
Verification of the CR3/BMFF container core of `rawloader`
(`src/decoders/cr3.rs`, `src/decoders/bmff.rs`).

The byte buffer is modelled as `List UInt8`; a `Cursor<&[u8]>` is the pair
of the (immutable) buffer and a `Nat` position, threaded explicitly.
Multi-byte header integers are decoded big-endian into `Nat` (the values of
the Rust `u32`s, which `from_be_bytes` bounds below `2^32`); sample words
are decoded little-endian into `Nat` (values of `u16`, below `2^16`).
Fallible Rust functions returning `Result<_, String>` are modelled with
`Except Cr3Error _`, where `Cr3Error` has one constructor per distinct
`Err` site of the source.
-/

namespace Cr3

/-- The bytes `buf[pos .. pos+n)` (shorter if the buffer ends first). -/
def bytesAt (buf : List UInt8) (pos n : Nat) : List UInt8 :=
  (buf.drop pos).take n

/-- Model of `Read::read_exact` on a `Cursor<&[u8]>`: succeeds exactly when
`n` bytes remain, advancing the position by `n`; on failure it consumes
whatever remains (position moves to the end of the buffer). -/
def readExact (buf : List UInt8) (pos n : Nat) : Option (List UInt8) × Nat :=
  if pos + n ≤ buf.length then (some (bytesAt buf pos n), pos + n)
  else (none, max pos buf.length)

/-- Value of `u32::from_be_bytes` on a 4-byte slice. -/
def beU32 (l : List UInt8) : Nat :=
  match l with
  | [a, b, c, d] => ((a.toNat * 256 + b.toNat) * 256 + c.toNat) * 256 + d.toNat
  | _ => 0

/-- Value of `u16::from_le_bytes [a, b]`. -/
def leU16 (a b : UInt8) : Nat :=
  a.toNat + 256 * b.toNat

/-- `*b"CRAW"`. -/
def BOX_TYPE_CRAW : List UInt8 := [67, 82, 65, 87]
/-- `*b"moov"`. -/
def BOX_TYPE_MOOV : List UInt8 := [109, 111, 111, 118]
/-- `*b"trak"`. -/
def BOX_TYPE_TRAK : List UInt8 := [116, 114, 97, 107]
/-- `*b"mdia"`. -/
def BOX_TYPE_MDIA : List UInt8 := [109, 100, 105, 97]
/-- `*b"minf"`. -/
def BOX_TYPE_MINF : List UInt8 := [109, 105, 110, 102]
/-- `*b"stbl"`. -/
def BOX_TYPE_STBL : List UInt8 := [115, 116, 98, 108]
/-- `*b"uuid"`. -/
def BOX_TYPE_UUID : List UInt8 := [117, 117, 105, 100]
/-- `*b"ftyp"`. -/
def FTYP_TAG : List UInt8 := [102, 116, 121, 112]

/-- `is_container_box` from `cr3.rs`. -/
def is_container_box (t : List UInt8) : Bool :=
  t == BOX_TYPE_MOOV || t == BOX_TYPE_TRAK || t == BOX_TYPE_MDIA ||
  t == BOX_TYPE_MINF || t == BOX_TYPE_STBL || t == BOX_TYPE_UUID

/-- One error constructor per distinct `Err` site of the modelled source. -/
inductive Cr3Error where
  | readBoxSize : Cr3Error
  | readBoxType : Cr3Error
  | largeBox : Cr3Error
  | readUuid : Cr3Error
  | invalidBoxSize (size offset : Nat) : Cr3Error
  | boxBeyondEnd (size offset : Nat) : Cr3Error
  | readCrawHeader : Cr3Error
  | invalidDimensions : Cr3Error
  | invalidBitDepth : Cr3Error
  | invalidComponents : Cr3Error
  | rawDataRead (pos row : Nat) : Cr3Error
  | unsupportedBitDepth : Cr3Error
  | noCrawBox : Cr3Error
  | ftypHeaderUnreadable : Cr3Error
  | notFtyp : Cr3Error
deriving Repr, DecidableEq

/-- `struct Box` from `cr3.rs` (`size` holds the value of the `u32` field). -/
structure Box where
  box_type : List UInt8
  size : Nat
  offset : Nat
  data_offset : Nat
deriving Repr, DecidableEq

/-- `struct CrawHeader` from `cr3.rs` (fields hold the values of the
`u32`/`u8` fields). -/
structure CrawHeader where
  width : Nat
  height : Nat
  bit_depth : Nat
  components : Nat
  component_bit_depth : Nat
deriving Repr, DecidableEq

/-- Tail of `read_box` after the size/type/uuid reads: the `size < 8` check,
the buffer-extent check, and the final `Ok`. -/
def read_box_finish (buf : List UInt8) (type_bytes : List UInt8)
    (size offset data_offset p : Nat) : Except Cr3Error Box × Nat :=
  if size < 8 then (.error (.invalidBoxSize size offset), p)
  else if buf.length < offset + size then (.error (.boxBeyondEnd size offset), p)
  else (.ok { box_type := type_bytes, size := size, offset := offset,
              data_offset := data_offset }, p)

/-- `Cr3Decoder::read_box`. -/
def read_box (buf : List UInt8) (pos : Nat) : Except Cr3Error Box × Nat :=
  let offset := pos
  match readExact buf pos 4 with
  | (none, p) => (.error .readBoxSize, p)
  | (some size_bytes, p1) =>
    match readExact buf p1 4 with
    | (none, p) => (.error .readBoxType, p)
    | (some type_bytes, p2) =>
      let size := beU32 size_bytes
      let data_offset := p2
      if size = 1 then (.error .largeBox, p2)
      else if type_bytes = BOX_TYPE_UUID then
        match readExact buf p2 16 with
        | (none, p) => (.error .readUuid, p)
        | (some _uuid, p3) =>
          read_box_finish buf type_bytes size offset (data_offset + 16) p3
      else
        read_box_finish buf type_bytes size offset data_offset p2

/-- `Cr3Decoder::parse_craw_header` (`&self` is unused by the source). -/
def parse_craw_header (buf : List UInt8) (pos : Nat) :
    Except Cr3Error CrawHeader × Nat :=
  match readExact buf pos 28 with
  | (none, p) => (.error .readCrawHeader, p)
  | (some header, p) =>
    let width := beU32 (header.take 4)
    let height := beU32 ((header.drop 4).take 4)
    let bit_depth := (header.getD 8 0).toNat
    let components := (header.getD 9 0).toNat
    let component_bit_depth := (header.getD 10 0).toNat
    if width = 0 ∨ height = 0 then (.error .invalidDimensions, p)
    else if bit_depth = 0 ∨ 32 < bit_depth then (.error .invalidBitDepth, p)
    else if components = 0 then (.error .invalidComponents, p)
    else (.ok { width := width, height := height, bit_depth := bit_depth,
                components := components,
                component_bit_depth := component_bit_depth }, p)

theorem readExact_eq_some_iff {buf : List UInt8} {pos n : Nat} {bs : List UInt8}
    {p : Nat} :
    readExact buf pos n = (some bs, p) ↔
      pos + n ≤ buf.length ∧ bs = bytesAt buf pos n ∧ p = pos + n := by
  unfold readExact
  split
  · rename_i hle
    simp only [Prod.mk.injEq, Option.some.injEq]
    constructor
    · rintro ⟨h1, h2⟩
      exact ⟨hle, h1.symm, h2.symm⟩
    · rintro ⟨-, h1, h2⟩
      exact ⟨h1.symm, h2.symm⟩
  · rename_i hle
    simp only [Prod.mk.injEq]
    constructor
    · rintro ⟨h1, -⟩
      exact absurd h1 (by simp)
    · rintro ⟨h1, -⟩
      exact absurd h1 hle

theorem readExact_eq_none_iff {buf : List UInt8} {pos n : Nat} {p : Nat} :
    readExact buf pos n = (none, p) ↔
      buf.length < pos + n ∧ p = max pos buf.length := by
  unfold readExact
  split
  · rename_i hle
    simp only [Prod.mk.injEq]
    constructor
    · rintro ⟨h1, -⟩
      exact absurd h1 (by simp)
    · rintro ⟨h1, -⟩
      exact absurd h1 (by omega)
  · rename_i hle
    simp only [Prod.mk.injEq]
    constructor
    · rintro ⟨-, h2⟩
      exact ⟨by omega, h2.symm⟩
    · rintro ⟨-, h2⟩
      exact ⟨trivial, h2.symm⟩

theorem read_box_ok {buf : List UInt8} {pos : Nat} {bh : Box} {p : Nat}
    (h : read_box buf pos = (.ok bh, p)) :
    bh.offset = pos ∧ 8 ≤ bh.size ∧ bh.offset + bh.size ≤ buf.length ∧
    pos + 8 ≤ bh.data_offset := by
  obtain ⟨t, s, o, d⟩ := bh
  unfold read_box read_box_finish at h
  all_goals try split at h
  all_goals try simp_all [Box.mk.injEq, readExact_eq_some_iff]
  all_goals try split at h
  all_goals try simp_all [Box.mk.injEq, readExact_eq_some_iff]
  all_goals try split at h
  all_goals try simp_all [Box.mk.injEq, readExact_eq_some_iff]
  all_goals try split at h
  all_goals try simp_all [Box.mk.injEq, readExact_eq_some_iff]
  all_goals try split at h
  all_goals try simp_all [Box.mk.injEq, readExact_eq_some_iff]
  all_goals try split at h
  all_goals try simp_all [Box.mk.injEq, readExact_eq_some_iff]
  all_goals try split at h
  all_goals try simp_all [Box.mk.injEq, readExact_eq_some_iff]
  all_goals try (obtain ⟨⟨h1, h2, h3, h4⟩, h5⟩ := h)
  all_goals try subst h3
  all_goals omega

/-- The loop-exit test of `find_craw_box`: with a known end bound, stop once
the box's start offset has reached or passed it
(`if box_header.offset >= end { break }`). -/
def end_reached (end_pos : Option Nat) (offset : Nat) : Bool :=
  match end_pos with
  | some e => decide (e ≤ offset)
  | none => false

/-- The nested function `find_craw_box` of `Cr3Decoder::image`.  The `while
let Ok(..)` loop is modelled as tail recursion: a failing `read_box` ends the
loop, and "skip to next box" continues at `box_end` with the same bound.
Seeks to `SeekFrom::Start` on a `Cursor` never fail, so the source's
seek-error arms are unreachable and have no model. -/
def find_craw_box (buf : List UInt8) (pos : Nat) (end_pos : Option Nat) :
    Except Cr3Error (Option CrawHeader) × Nat :=
  match h : read_box buf pos with
  | (.error _, p) => (.ok none, p)
  | (.ok bh, p1) =>
    let box_end := bh.offset + bh.size
    if end_reached end_pos bh.offset then (.ok none, p1)
    else if bh.box_type = BOX_TYPE_CRAW then
      match parse_craw_header buf bh.data_offset with
      | (.error e, p2) => (.error e, p2)
      | (.ok hd, p2) => (.ok (some hd), p2)
    else if 8 < bh.size ∧ is_container_box bh.box_type then
      match find_craw_box buf bh.data_offset (some box_end) with
      | (.error e, p2) => (.error e, p2)
      | (.ok (some hd), p2) => (.ok (some hd), p2)
      | (.ok none, _) => find_craw_box buf box_end end_pos
    else
      find_craw_box buf box_end end_pos
termination_by buf.length - pos
decreasing_by
  all_goals (obtain ⟨e1, e2, e3, e4⟩ := read_box_ok h; omega)

/-- Fuel-bounded instrumented version of `find_craw_box`: identical control
flow, but the depth of recursion is capped by `fuel` (`none` = fuel ran out)
and the run additionally records a trace of every box that was tested against
the `CRAW` target — every successfully read box whose offset had not reached
the bound — paired with the `end_pos` bound of the call that tested it. -/
def find_craw_trace (buf : List UInt8) :
    Nat → Nat → Option Nat →
    Option ((Except Cr3Error (Option CrawHeader) × Nat) × List (Nat × Option Nat))
  | 0, _, _ => none
  | fuel + 1, pos, end_pos =>
    match read_box buf pos with
    | (.error _, p) => some ((.ok none, p), [])
    | (.ok bh, p1) =>
      let box_end := bh.offset + bh.size
      if end_reached end_pos bh.offset then some ((.ok none, p1), [])
      else if bh.box_type = BOX_TYPE_CRAW then
        match parse_craw_header buf bh.data_offset with
        | (.error e, p2) => some ((.error e, p2), [(bh.offset, end_pos)])
        | (.ok hd, p2) => some ((.ok (some hd), p2), [(bh.offset, end_pos)])
      else if 8 < bh.size ∧ is_container_box bh.box_type then
        match find_craw_trace buf fuel bh.data_offset (some box_end) with
        | none => none
        | some ((.error e, p2), tr) => some ((.error e, p2), (bh.offset, end_pos) :: tr)
        | some ((.ok (some hd), p2), tr) =>
          some ((.ok (some hd), p2), (bh.offset, end_pos) :: tr)
        | some ((.ok none, _), tr) =>
          match find_craw_trace buf fuel box_end end_pos with
          | none => none
          | some (r, tr2) => some (r, (bh.offset, end_pos) :: (tr ++ tr2))
      else
        match find_craw_trace buf fuel box_end end_pos with
        | none => none
        | some (r, tr2) => some (r, (bh.offset, end_pos) :: tr2)

theorem find_craw_trace_complete :
    ∀ (f : Nat) (buf : List UInt8) (pos : Nat) (end_pos : Option Nat),
    0 < f → buf.length < pos + 8 * f →
    (find_craw_trace buf f pos end_pos).map Prod.fst =
      some (find_craw_box buf pos end_pos) := by
  intro f
  induction f with
  | zero =>
    intro buf pos e h0 _
    exact absurd h0 (by omega)
  | succ f ih =>
    intro buf pos e _ hlen
    rw [find_craw_box]
    rcases hrb : read_box buf pos with ⟨res, p1⟩
    cases res with
    | error e0 =>
      simp [find_craw_trace, hrb]
    | ok bh =>
      obtain ⟨e1, e2, e3, e4⟩ := read_box_ok hrb
      have hf : 0 < f := by omega
      by_cases hend : end_reached e bh.offset
      · simp [find_craw_trace, hrb, hend]
      · by_cases hcraw : bh.box_type = BOX_TYPE_CRAW
        · rcases hph : parse_craw_header buf bh.data_offset with ⟨pres, p2⟩
          cases pres with
          | error pe => simp [find_craw_trace, hrb, hend, hcraw, hph]
          | ok hd => simp [find_craw_trace, hrb, hend, hcraw, hph]
        · by_cases hcont : 8 < bh.size ∧ is_container_box bh.box_type
          · have hnest := ih buf bh.data_offset (some (bh.offset + bh.size)) hf
              (by omega)
            rcases htr1 : find_craw_trace buf f bh.data_offset
                (some (bh.offset + bh.size)) with - | ⟨⟨nres, np⟩, tr1⟩
            · rw [htr1] at hnest
              simp at hnest
            · rw [htr1] at hnest
              simp only [Option.map_some', Option.some.injEq] at hnest
              cases nres with
              | error ne =>
                simp [find_craw_trace, hrb, hend, hcraw, hcont, htr1, ← hnest]
              | ok nopt =>
                cases nopt with
                | some hd =>
                  simp [find_craw_trace, hrb, hend, hcraw, hcont, htr1, ← hnest]
                | none =>
                  have hcontin := ih buf (bh.offset + bh.size) e hf (by omega)
                  rcases htr2 : find_craw_trace buf f (bh.offset + bh.size) e
                      with - | ⟨r2, tr2⟩
                  · rw [htr2] at hcontin
                    simp at hcontin
                  · rw [htr2] at hcontin
                    simp only [Option.map_some', Option.some.injEq] at hcontin
                    simp [find_craw_trace, hrb, hend, hcraw, hcont, htr1, htr2,
                      ← hnest, ← hcontin]
          · have hcontin := ih buf (bh.offset + bh.size) e hf (by omega)
            rcases htr2 : find_craw_trace buf f (bh.offset + bh.size) e
                with - | ⟨r2, tr2⟩
            · rw [htr2] at hcontin
              simp at hcontin
            · rw [htr2] at hcontin
              simp only [Option.map_some', Option.some.injEq] at hcontin
              simp [find_craw_trace, hrb, hend, hcraw, hcont, htr2, ← hcontin]

/-- Modelled from the spec: the image-allocation collaborator
(`alloc_image_plain!`, not part of the two source files under scrutiny).
Spec §6: "given width/height/dummy-flag, returns a buffer of `width*height`
samples (zero-filled acceptable for dummy mode)". -/
def alloc_image_plain (width height : Nat) (_dummy : Bool) : List Nat :=
  List.replicate (width * height) 0

/-- Inner `for col in 0..width` loop of `decode_raw_image`, for one row whose
bytes were read into `row_data`.  `n` counts the remaining columns
(`col + n = width` at every call); the match on `bytes_per_pixel` mirrors the
source's `match` with arms `1`, `2` and `_ => Err("Unsupported bit depth")`.
Indexing `row_data[..]` is total in Rust here (always in bounds when reached)
and is modelled with `List.getD`. -/
def decode_cols (row_data : List UInt8) (bpp width row : Nat) :
    Nat → Nat → List Nat → Except Cr3Error (List Nat)
  | 0, _, image => .ok image
  | n + 1, col, image =>
    let pixel_offset := col * bpp
    match bpp with
    | 1 =>
      decode_cols row_data bpp width row n (col + 1)
        (image.set (row * width + col) (row_data.getD pixel_offset 0).toNat)
    | 2 =>
      decode_cols row_data bpp width row n (col + 1)
        (image.set (row * width + col)
          (leU16 (row_data.getD pixel_offset 0) (row_data.getD (pixel_offset + 1) 0)))
    | _ => .error .unsupportedBitDepth

/-- Outer `for row in 0..height` loop of `decode_raw_image`.  `n` counts the
remaining rows (`row + n = height` at every call); each iteration reads
`row_size` bytes and decodes them column by column. -/
def decode_rows (buf : List UInt8) (row_size bpp width : Nat) :
    Nat → Nat → Nat → List Nat → Except Cr3Error (List Nat) × Nat
  | 0, _, pos, image => (.ok image, pos)
  | n + 1, row, pos, image =>
    match readExact buf pos row_size with
    | (none, p) => (.error (.rawDataRead p row), p)
    | (some row_data, p) =>
      match decode_cols row_data bpp width row width 0 image with
      | .error e => (.error e, p)
      | .ok image2 => decode_rows buf row_size bpp width n (row + 1) p image2

/-- `Cr3Decoder::decode_raw_image`. -/
def decode_raw_image (buf : List UInt8) (pos : Nat) (header : CrawHeader)
    (dummy : Bool) : Except Cr3Error (List Nat) × Nat :=
  let width := header.width
  let height := header.height
  let image := alloc_image_plain width height dummy
  if dummy then (.ok image, pos)
  else
    let bytes_per_pixel := (header.bit_depth + 7) / 8
    let row_size := width * bytes_per_pixel
    decode_rows buf row_size bytes_per_pixel width height 0 pos image

/-- Shallow model of the Rust `f32` values this core stores: only literals
and `NAN` ever occur and no arithmetic is performed on them. -/
inductive F32 where
  | val (q : ℚ) : F32
  | nan : F32
deriving Repr, DecidableEq

/-- Modelled from the spec: the `Camera` record consumed from the external
`decoders` module (spec §3: make/clean_make/model/clean_model strings plus an
ordered hint list; `Camera::new` starts from default field values). -/
structure Camera where
  make : String := ""
  clean_make : String := ""
  model : String := ""
  clean_model : String := ""
  hints : List String := []
deriving Repr, DecidableEq

/-- Modelled from the spec: the `RawImage` record produced once per decode
(spec §3: width, height, flat row-major pixel buffer, camera record, four
white-balance coefficients). -/
structure RawImage where
  width : Nat
  height : Nat
  wb_coeffs : F32 × F32 × F32 × F32
  data : List Nat
  camera : Camera
deriving Repr, DecidableEq

/-- Modelled from the spec: `ok_image` from the external `decoders` module
assembles the `RawImage` from the camera record, dimensions, white-balance
coefficients and pixel buffer (spec §4.7 step 5). -/
def ok_image (camera : Camera) (width height : Nat)
    (wb_coeffs : F32 × F32 × F32 × F32) (image : List Nat) :
    Except Cr3Error RawImage :=
  .ok { width := width, height := height, wb_coeffs := wb_coeffs,
        data := image, camera := camera }

/-- `Cr3Decoder::image` (the `Decoder` impl) specialised to `tiff = None`:
the camera record is the hard-coded Canon fallback, and
`extract_basic_metadata` leaves it unchanged (every branch of that function
is guarded by `if let Some(ref tiff)`).  The `tiff = Some` path depends on
the external TIFF and camera-database collaborators and is outside the two
source files modelled here. -/
def image_no_tiff (buf : List UInt8) (dummy : Bool) : Except Cr3Error RawImage :=
  let camera : Camera :=
    { make := "Canon", clean_make := "Canon",
      model := "EOS CR3", clean_model := "EOS CR3", hints := [] }
  match find_craw_box buf 0 none with
  | (.error e, _) => .error e
  | (.ok none, _) => .error .noCrawBox
  | (.ok (some header), pos) =>
    match decode_raw_image buf pos header dummy with
    | (.error e, _) => .error e
    | (.ok image, _) =>
      ok_image camera header.width header.height
        (F32.val 1, F32.val 1, F32.val 1, F32.nan) image

/-- Loop of `Bmff::compatible_brand` over the declared compatible brands:
read up to `n` 4-byte tags, returning true on the first match, false on a
short read or when the tags are exhausted. -/
def check_brands (buf : List UInt8) (brand : List UInt8) :
    Nat → Nat → Bool
  | _, 0 => false
  | pos, n + 1 =>
    match readExact buf pos 4 with
    | (none, _) => false
    | (some tag, p) => if tag = brand then true else check_brands buf brand p n

/-- `Bmff::compatible_brand` (`bmff.rs`).  The `Bmff` reader owns a copy of
the stream and seeks to 0 first, so the model takes the stream directly;
`brand: &str` is modelled as its byte sequence. -/
def compatible_brand (buf : List UInt8) (brand : List UInt8) : Bool :=
  if brand.length ≠ 4 then false
  else
    match readExact buf 0 4 with
    | (none, _) => false
    | (some size_bytes, p1) =>
      match readExact buf p1 4 with
      | (none, _) => false
      | (some box_type, p2) =>
        match readExact buf p2 4 with
        | (none, _) => false
        | (some major_brand, p3) =>
          if box_type ≠ FTYP_TAG then false
          else if major_brand = brand then true
          else
            match readExact buf p3 4 with
            | (none, _) => false
            | (some _minor, p4) =>
              let box_size := beU32 size_bytes
              if box_size < 16 then false
              else
                let num_brands := (box_size - 16) / 4
                if 100 < num_brands then false
                else check_brands buf brand p4 num_brands

/-- Modelled from the spec: the gathering loop of `get_brands` — read up to
`n` 4-byte compatible-brand tags in on-disk order, stopping (with the tags
gathered so far) at the first short read (spec §4.2). -/
def read_brands_loop (buf : List UInt8) : Nat → Nat → List (List UInt8)
  | _, 0 => []
  | pos, n + 1 =>
    match readExact buf pos 4 with
    | (none, _) => []
    | (some tag, p) => tag :: read_brands_loop buf p n

/-- Modelled from the spec: `get_brands` (spec §4.2), which is not present in
`bmff.rs`.  Same structural parse as `compatible_brand` — read
`size:u32, type:4, major_brand:4`, fail if the header is unreadable or the
type tag is not `ftyp` — then collect the major brand followed by the
compatible brands in on-disk order, returning the brands gathered so far if
the minor-version or compatible-brand region cannot be fully read. -/
def get_brands (buf : List UInt8) : Except Cr3Error (List (List UInt8)) :=
  match readExact buf 0 4 with
  | (none, _) => .error .ftypHeaderUnreadable
  | (some size_bytes, p1) =>
    match readExact buf p1 4 with
    | (none, _) => .error .ftypHeaderUnreadable
    | (some box_type, p2) =>
      match readExact buf p2 4 with
      | (none, _) => .error .ftypHeaderUnreadable
      | (some major_brand, p3) =>
        if box_type ≠ FTYP_TAG then .error .notFtyp
        else
          match readExact buf p3 4 with
          | (none, _) => .ok [major_brand]
          | (some _minor, p4) =>
            let box_size := beU32 size_bytes
            let num_brands := (box_size - 16) / 4
            .ok (major_brand :: read_brands_loop buf p4 num_brands)

/-- Specification-side restatement of `read_box` (§4.2 of the claims): the
five failure conditions in their checking order, and the successful `Box`
shape, written as one decision list over the raw buffer. -/
def read_box_spec_fn (buf : List UInt8) (pos : Nat) : Except Cr3Error Box :=
  if buf.length < pos + 4 then .error .readBoxSize
  else if buf.length < pos + 8 then .error .readBoxType
  else
    let size := beU32 (bytesAt buf pos 4)
    let type_bytes := bytesAt buf (pos + 4) 4
    if size = 1 then .error .largeBox
    else if type_bytes = BOX_TYPE_UUID ∧ buf.length < pos + 24 then .error .readUuid
    else if size < 8 then .error (.invalidBoxSize size pos)
    else if buf.length < pos + size then .error (.boxBeyondEnd size pos)
    else .ok { box_type := type_bytes, size := size, offset := pos,
               data_offset := pos + (if type_bytes = BOX_TYPE_UUID then 24 else 8) }

/-- Specification-side restatement of `parse_craw_header`: the 28-byte read,
the big-endian dimension fields, the three byte fields, and the three
validation failures in their checking order. -/
def parse_craw_header_spec_fn (buf : List UInt8) (pos : Nat) :
    Except Cr3Error CrawHeader :=
  if buf.length < pos + 28 then .error .readCrawHeader
  else
    let width := beU32 (bytesAt buf pos 4)
    let height := beU32 (bytesAt buf (pos + 4) 4)
    let bit_depth := (buf.getD (pos + 8) 0).toNat
    let components := (buf.getD (pos + 9) 0).toNat
    let component_bit_depth := (buf.getD (pos + 10) 0).toNat
    if width = 0 ∨ height = 0 then .error .invalidDimensions
    else if bit_depth = 0 ∨ 32 < bit_depth then .error .invalidBitDepth
    else if components = 0 then .error .invalidComponents
    else .ok { width := width, height := height, bit_depth := bit_depth,
               components := components,
               component_bit_depth := component_bit_depth }

theorem getD_drop (l : List UInt8) (p j : Nat) (d : UInt8) :
    (l.drop p).getD j d = l.getD (p + j) d := by
  simp [List.getD_eq_getElem?_getD, List.getElem?_drop]

theorem getD_take (l : List UInt8) (n j : Nat) (d : UInt8) (h : j < n) :
    (l.take n).getD j d = l.getD j d := by
  simp [List.getD_eq_getElem?_getD, List.getElem?_take_of_lt h]

theorem bytesAt_getD (buf : List UInt8) (pos n j : Nat) (d : UInt8) (h : j < n) :
    (bytesAt buf pos n).getD j d = buf.getD (pos + j) d := by
  unfold bytesAt
  rw [getD_take _ _ _ _ h, getD_drop]

theorem bytesAt_take (buf : List UInt8) (pos n m : Nat) (h : m ≤ n) :
    (bytesAt buf pos n).take m = bytesAt buf pos m := by
  unfold bytesAt
  rw [List.take_take, Nat.min_eq_left h]

theorem bytesAt_drop_take (buf : List UInt8) (pos n k m : Nat) (h : k + m ≤ n) :
    ((bytesAt buf pos n).drop k).take m = bytesAt buf (pos + k) m := by
  unfold bytesAt
  rw [List.drop_take, List.take_take, List.drop_drop]
  congr 1 <;> omega

theorem read_box_fst_eq_spec (buf : List UInt8) (pos : Nat) :
    (read_box buf pos).1 = read_box_spec_fn buf pos := by
  unfold read_box read_box_spec_fn read_box_finish
  rcases hr1 : readExact buf pos 4 with ⟨o1, q1⟩
  cases o1 with
  | none =>
    obtain ⟨hl, -⟩ := readExact_eq_none_iff.mp hr1
    simp [hr1, hl]
  | some bs1 =>
    obtain ⟨hle4, hbs1, hq1⟩ := readExact_eq_some_iff.mp hr1
    subst hbs1; subst hq1
    rcases hr2 : readExact buf (pos + 4) 4 with ⟨o2, q2⟩
    cases o2 with
    | none =>
      obtain ⟨hl, -⟩ := readExact_eq_none_iff.mp hr2
      simp [hr1, hr2, show ¬ buf.length < pos + 4 by omega,
        show buf.length < pos + 8 by omega]
    | some bs2 =>
      obtain ⟨hle8, hbs2, hq2⟩ := readExact_eq_some_iff.mp hr2
      subst hbs2; subst hq2
      simp only [hr1, hr2, show ¬ buf.length < pos + 4 by omega, if_false,
        show ¬ buf.length < pos + 8 by omega,
        show pos + 4 + 4 = pos + 8 by omega]
      by_cases hs1 : beU32 (bytesAt buf pos 4) = 1
      · simp [hs1]
      · simp only [hs1, if_false]
        by_cases huuid : bytesAt buf (pos + 4) 4 = BOX_TYPE_UUID
        · rcases hr3 : readExact buf (pos + 8) 16 with ⟨o3, q3⟩
          cases o3 with
          | none =>
            obtain ⟨hl, -⟩ := readExact_eq_none_iff.mp hr3
            simp [hr3, huuid, show buf.length < pos + 24 by omega]
          | some bs3 =>
            obtain ⟨hle24, -, hq3⟩ := readExact_eq_some_iff.mp hr3
            subst hq3
            simp only [hr3, huuid, if_true, if_pos, if_neg,
              show ¬ buf.length < pos + 24 by omega, if_false, and_false,
              and_true, eq_self_iff_true, show pos + 8 + 16 = pos + 24 by omega]
            by_cases h8 : beU32 (bytesAt buf pos 4) < 8
            · simp [h8]
            · by_cases hbd : buf.length < pos + beU32 (bytesAt buf pos 4)
              · simp [h8, hbd]
              · simp [h8, hbd]
        · simp only [huuid, if_false, false_and]
          by_cases h8 : beU32 (bytesAt buf pos 4) < 8
          · simp [huuid, h8]
          · by_cases hbd : buf.length < pos + beU32 (bytesAt buf pos 4)
            · simp [huuid, h8, hbd]
            · simp [huuid, h8, hbd]

theorem read_box_ok_shape {buf : List UInt8} {pos : Nat} {bh : Box}
    (h : (read_box buf pos).1 = .ok bh) :
    bh = { box_type := bytesAt buf (pos + 4) 4, size := beU32 (bytesAt buf pos 4),
           offset := pos,
           data_offset :=
             pos + (if bytesAt buf (pos + 4) 4 = BOX_TYPE_UUID then 24 else 8) } := by
  rw [read_box_fst_eq_spec] at h
  unfold read_box_spec_fn at h
  all_goals try split at h
  all_goals try simp_all
  all_goals try split at h
  all_goals try simp_all
  all_goals try split at h
  all_goals try simp_all
  all_goals try split at h
  all_goals try simp_all
  all_goals try split at h
  all_goals try simp_all
  all_goals try split at h
  all_goals try simp_all
  all_goals try split at h
  all_goals try simp_all

/-- Claim C3 (confirmed): `read_box` errors exactly on the five conditions in
their stated order — unreadable size, unreadable type, `size == 1`,
unreadable 16-byte `uuid` extension, `size < 8`, `offset + size` beyond the
buffer — and on success the `Box` satisfies `data_offset = offset + 8`
(`offset + 24` for `uuid` boxes), `size ≥ 8` and
`offset + size ≤ buffer length`. -/
theorem read_box_error_conditions (buf : List UInt8) (pos : Nat) :
    (read_box buf pos).1 = read_box_spec_fn buf pos ∧
    (∀ bh p, read_box buf pos = (.ok bh, p) →
      bh.offset = pos ∧
      bh.data_offset = bh.offset + (if bh.box_type = BOX_TYPE_UUID then 24 else 8) ∧
      8 ≤ bh.size ∧ bh.offset + bh.size ≤ buf.length) := by
  refine ⟨read_box_fst_eq_spec buf pos, ?_⟩
  intro bh p h
  have h1 : (read_box buf pos).1 = .ok bh := by rw [h]
  have hsh := read_box_ok_shape h1
  obtain ⟨e1, e2, e3, e4⟩ := read_box_ok h
  subst hsh
  exact ⟨rfl, rfl, e2, e3⟩

theorem parse_craw_header_fst_eq_spec (buf : List UInt8) (pos : Nat) :
    (parse_craw_header buf pos).1 = parse_craw_header_spec_fn buf pos := by
  unfold parse_craw_header parse_craw_header_spec_fn
  rcases hr : readExact buf pos 28 with ⟨o, q⟩
  cases o with
  | none =>
    obtain ⟨hl, -⟩ := readExact_eq_none_iff.mp hr
    simp [hr, hl]
  | some hd =>
    obtain ⟨hle, hbs, hq⟩ := readExact_eq_some_iff.mp hr
    subst hbs; subst hq
    have ht4 : (bytesAt buf pos 28).take 4 = bytesAt buf pos 4 :=
      bytesAt_take buf pos 28 4 (by omega)
    have hd4 : ((bytesAt buf pos 28).drop 4).take 4 = bytesAt buf (pos + 4) 4 :=
      bytesAt_drop_take buf pos 28 4 4 (by omega)
    have hg8 : (bytesAt buf pos 28).getD 8 0 = buf.getD (pos + 8) 0 :=
      bytesAt_getD buf pos 28 8 0 (by omega)
    have hg9 : (bytesAt buf pos 28).getD 9 0 = buf.getD (pos + 9) 0 :=
      bytesAt_getD buf pos 28 9 0 (by omega)
    have hg10 : (bytesAt buf pos 28).getD 10 0 = buf.getD (pos + 10) 0 :=
      bytesAt_getD buf pos 28 10 0 (by omega)
    simp only [hr, ht4, hd4, hg8, hg9, hg10,
      show ¬ buf.length < pos + 28 by omega, if_false]
    repeat' split
    all_goals rfl

/-- Claim C4 (confirmed): `parse_craw_header` reads exactly 28 bytes and
succeeds if and only if the read succeeds, `width > 0`, `height > 0`,
`1 ≤ bit_depth ≤ 32` and `components > 0`, where `width`/`height` are the
big-endian `u32`s at bytes 0–3 and 4–7 and `bit_depth`, `components`,
`component_bit_depth` are bytes 8, 9, 10; each violation is a distinct
failure and no value is clamped or defaulted. -/
theorem parse_craw_header_spec (buf : List UInt8) (pos : Nat) :
    (parse_craw_header buf pos).1 = parse_craw_header_spec_fn buf pos ∧
    (pos + 28 ≤ buf.length → (parse_craw_header buf pos).2 = pos + 28) := by
  refine ⟨parse_craw_header_fst_eq_spec buf pos, ?_⟩
  intro hle
  unfold parse_craw_header
  rcases hr : readExact buf pos 28 with ⟨o, q⟩
  cases o with
  | none =>
    obtain ⟨hl, -⟩ := readExact_eq_none_iff.mp hr
    omega
  | some hd =>
    obtain ⟨-, -, hq⟩ := readExact_eq_some_iff.mp hr
    subst hq
    simp only [hr]
    repeat' split
    all_goals rfl

/-- A 48-byte container tree: a `trak` of declared size 24 at offset 0,
holding an `mdia` at offset 8 whose declared size 40 extends past the
`trak`'s end (24) up to the buffer end (48), followed by two 8-byte `free`
leaf boxes at offsets 16 and 24 and zero padding. -/
def buf48 : List UInt8 :=
  [0, 0, 0, 24, 116, 114, 97, 107,
   0, 0, 0, 40, 109, 100, 105, 97,
   0, 0, 0, 8, 102, 114, 101, 101,
   0, 0, 0, 8, 102, 114, 101, 101,
   0, 0, 0, 0, 0, 0, 0, 0, 0, 0, 0, 0, 0, 0, 0, 0]

/-- Claim C1 (corrected), amended part: every box the walker tests against
the `CRAW` target is strictly below the end bound of the call that tested
it — the bound recorded with the visit.  (The original claim's stronger
form, bounding nested calls by the outer container's end as well, is refuted
by the separate counterexample theorem: a child container's recursion bound
is its own `offset + size`, never clamped to the parent's.) -/
theorem find_craw_trace_visit_below_bound :
    ∀ (f : Nat) (buf : List UInt8) (pos : Nat) (e : Option Nat) r tr,
    find_craw_trace buf f pos e = some (r, tr) →
    ∀ o E, (o, some E) ∈ tr → o < E := by
  intro f
  induction f with
  | zero =>
    intro buf pos e r tr h
    simp [find_craw_trace] at h
  | succ f ih =>
    intro buf pos e r tr h o E hmem
    rw [find_craw_trace] at h
    rcases hrb : read_box buf pos with ⟨res, p1⟩
    rw [hrb] at h
    cases res with
    | error e0 =>
      simp only [Option.some.injEq, Prod.mk.injEq] at h
      obtain ⟨-, htr⟩ := h
      rw [← htr] at hmem
      simp at hmem
    | ok bh =>
      simp only [] at h
      by_cases hend : end_reached e bh.offset
      · rw [if_pos hend] at h
        simp only [Option.some.injEq, Prod.mk.injEq] at h
        obtain ⟨-, htr⟩ := h
        rw [← htr] at hmem
        simp at hmem
      · rw [if_neg hend] at h
        have hhead : ∀ (o2 E2 : Nat), (o2, some E2) = (bh.offset, e) → o2 < E2 := by
          intro o2 E2 heq
          obtain ⟨ho2, he2⟩ := Prod.mk.injEq .. |>.mp heq
          subst ho2
          rw [← he2] at hend
          simp [end_reached] at hend
          omega
        by_cases hcraw : bh.box_type = BOX_TYPE_CRAW
        · rw [if_pos hcraw] at h
          rcases hph : parse_craw_header buf bh.data_offset with ⟨pres, p2⟩
          rw [hph] at h
          cases pres with
          | error pe =>
            simp only [Option.some.injEq, Prod.mk.injEq] at h
            obtain ⟨-, htr⟩ := h
            rw [← htr] at hmem
            rcases List.mem_singleton.mp hmem with heq
            exact hhead o E heq
          | ok hd =>
            simp only [Option.some.injEq, Prod.mk.injEq] at h
            obtain ⟨-, htr⟩ := h
            rw [← htr] at hmem
            rcases List.mem_singleton.mp hmem with heq
            exact hhead o E heq
        · rw [if_neg hcraw] at h
          by_cases hcont : 8 < bh.size ∧ is_container_box bh.box_type
          · rw [if_pos hcont] at h
            rcases ht1 : find_craw_trace buf f bh.data_offset
                (some (bh.offset + bh.size)) with - | ⟨⟨nres, np⟩, tr1⟩
            · rw [ht1] at h
              simp at h
            · rw [ht1] at h
              cases nres with
              | error ne =>
                simp only [Option.some.injEq, Prod.mk.injEq] at h
                obtain ⟨-, htr⟩ := h
                rw [← htr] at hmem
                rcases List.mem_cons.mp hmem with heq | hmem1
                · exact hhead o E heq
                · exact ih buf bh.data_offset (some (bh.offset + bh.size))
                    (.error ne, np) tr1 ht1 o E hmem1
              | ok nopt =>
                cases nopt with
                | some hd =>
                  simp only [Option.some.injEq, Prod.mk.injEq] at h
                  obtain ⟨-, htr⟩ := h
                  rw [← htr] at hmem
                  rcases List.mem_cons.mp hmem with heq | hmem1
                  · exact hhead o E heq
                  · exact ih buf bh.data_offset (some (bh.offset + bh.size))
                      (.ok (some hd), np) tr1 ht1 o E hmem1
                | none =>
                  rcases ht2 : find_craw_trace buf f (bh.offset + bh.size) e
                      with - | ⟨r2, tr2⟩
                  · rw [ht2] at h
                    simp at h
                  · rw [ht2] at h
                    simp only [Option.some.injEq, Prod.mk.injEq] at h
                    obtain ⟨-, htr⟩ := h
                    rw [← htr] at hmem
                    rcases List.mem_cons.mp hmem with heq | hmem1
                    · exact hhead o E heq
                    · rcases List.mem_append.mp hmem1 with hmem2 | hmem2
                      · exact ih buf bh.data_offset (some (bh.offset + bh.size))
                          (.ok none, np) tr1 ht1 o E hmem2
                      · exact ih buf (bh.offset + bh.size) e r2 tr2 ht2 o E hmem2
          · rw [if_neg hcont] at h
            rcases ht2 : find_craw_trace buf f (bh.offset + bh.size) e
                with - | ⟨r2, tr2⟩
            · rw [ht2] at h
              simp at h
            · rw [ht2] at h
              simp only [Option.some.injEq, Prod.mk.injEq] at h
              obtain ⟨-, htr⟩ := h
              rw [← htr] at hmem
              rcases List.mem_cons.mp hmem with heq | hmem1
              · exact hhead o E heq
              · exact ih buf (bh.offset + bh.size) e r2 tr2 ht2 o E hmem1

/-- Claim C1 witness: on `buf48`, the call with end bound 24 (entered for the
`trak` container) directly tests the `mdia` box at offset 8, and 8 < 24. -/
theorem find_craw_trace_visit_below_bound_witness :
    find_craw_trace buf48 7 8 (some 24) =
      some ((.ok none, 48), [(8, some 24), (16, some 48), (24, some 48)]) ∧
    (8, some 24) ∈ [((8 : Nat), some (24 : Nat)), (16, some 48), (24, some 48)] ∧
    8 < 24 :=
  ⟨rfl, by decide,
    find_craw_trace_visit_below_bound 7 buf48 8 (some 24) (.ok none, 48)
      [(8, some 24), (16, some 48), (24, some 48)] rfl 8 24 (by decide)⟩

/-- Claim C1 (corrected), counterexample part: on `buf48` the walker recurses
into the `trak` container at offset 0 with end bound 24, yet the nested call
for the overflowing `mdia` child (bound 48) tests the box at offset 24 —
a box visited inside the bound-24 recursive call whose offset is not
strictly below 24.  The trace pairs each tested box with the bound of the
call that tested it. -/
theorem find_craw_box_nested_visit_counterexample :
    (read_box buf48 0).1 =
      .ok { box_type := BOX_TYPE_TRAK, size := 24, offset := 0, data_offset := 8 } ∧
    is_container_box BOX_TYPE_TRAK = true ∧
    find_craw_trace buf48 7 0 none =
      some ((.ok none, 40),
        [(0, none), (8, some 24), (16, some 48), (24, some 48), (24, none)]) ∧
    find_craw_trace buf48 7 8 (some 24) =
      some ((.ok none, 48), [(8, some 24), (16, some 48), (24, some 48)]) ∧
    (24, some 48) ∈ [((8 : Nat), some (24 : Nat)), (16, some 48), (24, some 48)] ∧
    ¬ 24 < 24 :=
  ⟨rfl, rfl, rfl, rfl, by decide, by decide⟩

/-- Claim C2 (confirmed): the box search terminates on every input: recursion
depth `buf.length / 8 + 1` always suffices — the fuel-bounded walker
completes within that depth and returns exactly the value of
`find_craw_box`, for every buffer, start position and bound. -/
theorem find_craw_box_terminates (buf : List UInt8) (pos : Nat) (e : Option Nat) :
    (find_craw_trace buf (buf.length / 8 + 1) pos e).map Prod.fst =
      some (find_craw_box buf pos e) :=
  find_craw_trace_complete (buf.length / 8 + 1) buf pos e (by omega) (by omega)

/-- A 36-byte buffer holding a single top-level `CRAW` box: size 36, tag
`CRAW`, then the 28-byte header `width=1, height=1, bit_depth=8,
components=1, component_bit_depth=0` with zeroed reserved bytes. -/
def buf36 : List UInt8 :=
  [0, 0, 0, 36, 67, 82, 65, 87,
   0, 0, 0, 1, 0, 0, 0, 1, 8, 1, 0,
   0, 0, 0, 0, 0, 0, 0, 0, 0, 0, 0, 0, 0, 0, 0, 0, 0]

/-- A 28-byte `CRAW` header image: `width=1, height=1, bit_depth=17,
components=1, component_bit_depth=0`, reserved bytes zero. -/
def hdrbuf17 : List UInt8 :=
  [0, 0, 0, 1, 0, 0, 0, 1, 17, 1, 0,
   0, 0, 0, 0, 0, 0, 0, 0, 0, 0, 0, 0, 0, 0, 0, 0, 0]

/-- Claim C3 witness: the `trak` box at the head of `buf48` parses
successfully and exhibits the success invariants. -/
theorem read_box_error_conditions_witness :
    (read_box buf48 0).1 = read_box_spec_fn buf48 0 ∧
    (({ box_type := BOX_TYPE_TRAK, size := 24, offset := 0,
        data_offset := 8 } : Box).offset = 0 ∧
     ({ box_type := BOX_TYPE_TRAK, size := 24, offset := 0,
        data_offset := 8 } : Box).data_offset =
       ({ box_type := BOX_TYPE_TRAK, size := 24, offset := 0,
          data_offset := 8 } : Box).offset +
       (if ({ box_type := BOX_TYPE_TRAK, size := 24, offset := 0,
              data_offset := 8 } : Box).box_type = BOX_TYPE_UUID then 24 else 8) ∧
     8 ≤ ({ box_type := BOX_TYPE_TRAK, size := 24, offset := 0,
            data_offset := 8 } : Box).size ∧
     ({ box_type := BOX_TYPE_TRAK, size := 24, offset := 0,
        data_offset := 8 } : Box).offset +
       ({ box_type := BOX_TYPE_TRAK, size := 24, offset := 0,
          data_offset := 8 } : Box).size ≤ buf48.length) :=
  ⟨(read_box_error_conditions buf48 0).1,
   (read_box_error_conditions buf48 0).2
     { box_type := BOX_TYPE_TRAK, size := 24, offset := 0, data_offset := 8 }
     8 rfl⟩

/-- Claim C4 witness: the `CRAW` payload header of `buf36` (at offset 8)
parses as the spec function prescribes and consumes exactly 28 bytes. -/
theorem parse_craw_header_spec_witness :
    (parse_craw_header buf36 8).1 = parse_craw_header_spec_fn buf36 8 ∧
    (parse_craw_header buf36 8).2 = 8 + 28 :=
  ⟨(parse_craw_header_spec buf36 8).1,
   (parse_craw_header_spec buf36 8).2 (by decide)⟩

/-- Claim C8 (confirmed): with `dummy = true`, `decode_raw_image` returns the
zero-initialised buffer of exactly `width * height` samples and leaves the
cursor position unchanged, for every buffer, position and header. -/
theorem decode_raw_image_dummy (buf : List UInt8) (pos : Nat) (hd : CrawHeader) :
    decode_raw_image buf pos hd true =
      (.ok (List.replicate (hd.width * hd.height) 0), pos) := rfl

/-- Claim C7 (corrected), counterexample part: for the validated header
`width=1, height=1, bit_depth=17, components=1` (a `bytes_per_pixel = 3`
layout) on an empty buffer, `decode_raw_image` in non-dummy mode fails with
the truncated-raw-data error, not with "unsupported bit depth": the
`bytes_per_pixel` match is only reached after the first row read succeeds. -/
theorem decode_raw_image_bpp3_counterexample :
    parse_craw_header_spec_fn hdrbuf17 0 =
      .ok { width := 1, height := 1, bit_depth := 17, components := 1,
            component_bit_depth := 0 } ∧
    decode_raw_image [] 0
      { width := 1, height := 1, bit_depth := 17, components := 1,
        component_bit_depth := 0 } false = (.error (.rawDataRead 0 0), 0) ∧
    Cr3Error.rawDataRead 0 0 ≠ Cr3Error.unsupportedBitDepth := by
  refine ⟨rfl, ?_, by decide⟩
  rfl

/-- Claim C7 (corrected), amended part: for every header whose
`bytes_per_pixel = ceil(bit_depth / 8)` is neither 1 nor 2 (with positive
dimensions, as validation guarantees), non-dummy `decode_raw_image` always
returns a hard error: "unsupported bit depth" when the first row of
`width * bytes_per_pixel` bytes is readable, and the truncated-raw-data
error otherwise. -/
theorem decode_raw_image_unsupported_bpp (buf : List UInt8) (pos : Nat)
    (hd : CrawHeader) (bpp : Nat) (hb : (hd.bit_depth + 7) / 8 = bpp)
    (h1 : bpp ≠ 1) (h2 : bpp ≠ 2) (hw : 1 ≤ hd.width) (hh : 1 ≤ hd.height) :
    (decode_raw_image buf pos hd false).1 =
      .error (if pos + hd.width * bpp ≤ buf.length then .unsupportedBitDepth
              else .rawDataRead (max pos buf.length) 0) := by
  obtain ⟨m, hm⟩ : ∃ m, hd.height = m + 1 := ⟨hd.height - 1, by omega⟩
  obtain ⟨w, hwm⟩ : ∃ w, hd.width = w + 1 := ⟨hd.width - 1, by omega⟩
  simp only [decode_raw_image, alloc_image_plain, Bool.false_eq_true, if_false,
    hb, hm]
  rw [decode_rows]
  by_cases hre : pos + hd.width * bpp ≤ buf.length
  · have hx : readExact buf pos (hd.width * bpp) =
        (some (bytesAt buf pos (hd.width * bpp)), pos + hd.width * bpp) := by
      unfold readExact
      rw [if_pos hre]
    rw [hx, if_pos hre]
    simp only [hwm]
    rcases bpp with _ | _ | _ | k
    · simp [decode_cols]
    · exact absurd rfl h1
    · exact absurd rfl h2
    · simp [decode_cols]
  · have hx : readExact buf pos (hd.width * bpp) =
        (none, max pos buf.length) := by
      unfold readExact
      rw [if_neg hre]
    rw [hx, if_neg hre]

/-- Claim C7 witness: the amended statement evaluated on the empty buffer with
the `bit_depth = 17` header: the first row is unreadable, so the result is
the truncated-raw-data error. -/
theorem decode_raw_image_unsupported_bpp_witness :
    (decode_raw_image [] 0
      { width := 1, height := 1, bit_depth := 17, components := 1,
        component_bit_depth := 0 } false).1 =
      .error (if 0 + 1 * 3 ≤ ([] : List UInt8).length
              then Cr3Error.unsupportedBitDepth
              else .rawDataRead (max 0 ([] : List UInt8).length) 0) :=
  decode_raw_image_unsupported_bpp [] 0
    { width := 1, height := 1, bit_depth := 17, components := 1,
      component_bit_depth := 0 } 3 (by decide) (by decide) (by decide)
    (by decide) (by decide)

theorem check_brands_eq_true_iff (buf brand : List UInt8) :
    ∀ (n pos : Nat),
    check_brands buf brand pos n = true ↔
      ∃ i, i < n ∧ pos + 4 * (i + 1) ≤ buf.length ∧
        bytesAt buf (pos + 4 * i) 4 = brand := by
  intro n
  induction n with
  | zero =>
    intro pos
    simp [check_brands]
  | succ n ih =>
    intro pos
    rw [check_brands]
    rcases hre : readExact buf pos 4 with ⟨o, q⟩
    cases o with
    | none =>
      obtain ⟨hl, -⟩ := readExact_eq_none_iff.mp hre
      simp only [Bool.false_eq_true, false_iff]
      rintro ⟨i, -, hle, -⟩
      omega
    | some tag =>
      obtain ⟨hle, htag, hq⟩ := readExact_eq_some_iff.mp hre
      subst htag; subst hq
      show (if bytesAt buf pos 4 = brand then true
            else check_brands buf brand (pos + 4) n) = true ↔ _
      by_cases heq : bytesAt buf pos 4 = brand
      · simp only [if_pos heq, true_iff]
        exact ⟨0, by omega, by omega, by simpa using heq⟩
      · rw [if_neg heq]
        rw [ih (pos + 4)]
        constructor
        · rintro ⟨i, hi, hil, hib⟩
          refine ⟨i + 1, by omega, by omega, ?_⟩
          rw [show pos + 4 * (i + 1) = pos + 4 + 4 * i by omega]
          exact hib
        · rintro ⟨i, hi, hil, hib⟩
          cases i with
          | zero =>
            exact absurd (by simpa using hib) heq
          | succ j =>
            refine ⟨j, by omega, by omega, ?_⟩
            rw [show pos + 4 + 4 * j = pos + 4 * (j + 1) by omega]
            exact hib

/-- Claim C5 (confirmed): `compatible_brand` returns `true` exactly when the
brand argument is 4 bytes, the stream starts with a readable `ftyp` header
and major brand, and the brand is the major brand or — with a readable minor
version, a size field of at least 16, and at most 100 declared compatible
brands — one of the first `(size - 16) / 4` fully readable compatible-brand
tags. -/
theorem compatible_brand_iff (buf brand : List UInt8) :
    compatible_brand buf brand = true ↔
      brand.length = 4 ∧ 12 ≤ buf.length ∧ bytesAt buf 4 4 = FTYP_TAG ∧
      (bytesAt buf 8 4 = brand ∨
        (16 ≤ buf.length ∧ 16 ≤ beU32 (bytesAt buf 0 4) ∧
         (beU32 (bytesAt buf 0 4) - 16) / 4 ≤ 100 ∧
         ∃ i, i < (beU32 (bytesAt buf 0 4) - 16) / 4 ∧
           16 + 4 * (i + 1) ≤ buf.length ∧
           bytesAt buf (16 + 4 * i) 4 = brand)) := by
  unfold compatible_brand
  by_cases hbl : brand.length = 4
  swap
  · simp [hbl]
  rw [if_neg (by omega : ¬ brand.length ≠ 4)]
  rcases hr1 : readExact buf 0 4 with ⟨o1, q1⟩
  cases o1 with
  | none =>
    obtain ⟨hl, -⟩ := readExact_eq_none_iff.mp hr1
    simp only [Bool.false_eq_true, false_iff]
    rintro ⟨-, h12, -⟩
    omega
  | some bs0 =>
    obtain ⟨hle0, hbs0, hq1⟩ := readExact_eq_some_iff.mp hr1
    subst hbs0; subst hq1
    simp only []
    rcases hr2 : readExact buf (0 + 4) 4 with ⟨o2, q2⟩
    cases o2 with
    | none =>
      obtain ⟨hl, -⟩ := readExact_eq_none_iff.mp hr2
      simp only [Bool.false_eq_true, false_iff]
      rintro ⟨-, h12, -⟩
      omega
    | some bs4 =>
      obtain ⟨hle4, hbs4, hq2⟩ := readExact_eq_some_iff.mp hr2
      subst hbs4; subst hq2
      simp only []
      rcases hr3 : readExact buf (0 + 4 + 4) 4 with ⟨o3, q3⟩
      cases o3 with
      | none =>
        obtain ⟨hl, -⟩ := readExact_eq_none_iff.mp hr3
        simp only [Bool.false_eq_true, false_iff]
        rintro ⟨-, h12, -⟩
        omega
      | some bs8 =>
        obtain ⟨hle8, hbs8, hq3⟩ := readExact_eq_some_iff.mp hr3
        subst hbs8; subst hq3
        simp only []
        have h12 : 12 ≤ buf.length := by omega
        simp only [show (0 : Nat) + 4 = 4 by rfl, show (0:Nat) + 4 + 4 = 8 by rfl]
        by_cases hft : bytesAt buf 4 4 = FTYP_TAG
        swap
        · rw [if_pos (by simpa using hft)]
          simp only [Bool.false_eq_true, false_iff]
          rintro ⟨-, -, hft2, -⟩
          exact hft hft2
        rw [if_neg (by simpa using hft)]
        by_cases hmaj : bytesAt buf 8 4 = brand
        · rw [if_pos hmaj]
          simp [hbl, h12, hft, hmaj]
        · rw [if_neg hmaj]
          rcases hr4 : readExact buf (0 + 4 + 4 + 4) 4 with ⟨o4, q4⟩
          cases o4 with
          | none =>
            obtain ⟨hl, -⟩ := readExact_eq_none_iff.mp hr4
            simp only [Bool.false_eq_true, false_iff]
            rintro ⟨-, -, -, hmaj2 | ⟨h16, -⟩⟩
            · exact hmaj hmaj2
            · omega
          | some bsm =>
            obtain ⟨hle16, -, hq4⟩ := readExact_eq_some_iff.mp hr4
            subst hq4
            simp only []
            by_cases hsz : beU32 (bytesAt buf 0 4) < 16
            · rw [if_pos hsz]
              simp only [Bool.false_eq_true, false_iff]
              rintro ⟨-, -, -, hmaj2 | ⟨-, h16, -⟩⟩
              · exact hmaj hmaj2
              · omega
            · rw [if_neg hsz]
              by_cases hcap : 100 < (beU32 (bytesAt buf 0 4) - 16) / 4
              · rw [if_pos hcap]
                simp only [Bool.false_eq_true, false_iff]
                rintro ⟨-, -, -, hmaj2 | ⟨-, -, hcap2, -⟩⟩
                · exact hmaj hmaj2
                · omega
              · rw [if_neg hcap]
                rw [check_brands_eq_true_iff buf brand
                  ((beU32 (bytesAt buf 0 4) - 16) / 4) (0 + 4 + 4 + 4 + 4)]
                constructor
                · rintro ⟨i, hi, hil, hib⟩
                  refine ⟨hbl, h12, hft, Or.inr ⟨by omega, by omega, by omega,
                    i, hi, by omega, ?_⟩⟩
                  rw [show (16 : Nat) + 4 * i = 0 + 4 + 4 + 4 + 4 + 4 * i by omega]
                  exact hib
                · rintro ⟨-, -, -, hmaj2 | ⟨-, -, -, i, hi, hil, hib⟩⟩
                  · exact absurd hmaj2 hmaj
                  · refine ⟨i, hi, by omega, ?_⟩
                    rw [show (0 : Nat) + 4 + 4 + 4 + 4 + 4 * i = 16 + 4 * i by omega]
                    exact hib

theorem read_brands_loop_eq (buf : List UInt8) :
    ∀ (n pos : Nat),
    read_brands_loop buf pos n =
      (List.range (min n ((buf.length - pos) / 4))).map
        (fun i => bytesAt buf (pos + 4 * i) 4) := by
  intro n
  induction n with
  | zero =>
    intro pos
    simp [read_brands_loop]
  | succ n ih =>
    intro pos
    rw [read_brands_loop]
    rcases hre : readExact buf pos 4 with ⟨o, q⟩
    cases o with
    | none =>
      obtain ⟨hl, -⟩ := readExact_eq_none_iff.mp hre
      rw [show min (n + 1) ((buf.length - pos) / 4) = 0 by omega]
      simp
    | some tag =>
      obtain ⟨hle, htag, hq⟩ := readExact_eq_some_iff.mp hre
      subst htag; subst hq
      show bytesAt buf pos 4 :: read_brands_loop buf (pos + 4) n = _
      rw [ih (pos + 4)]
      rw [show min (n + 1) ((buf.length - pos) / 4) =
        min n ((buf.length - (pos + 4)) / 4) + 1 by omega]
      rw [List.range_succ_eq_map]
      simp only [List.map_cons, Nat.mul_zero, Nat.add_zero, List.map_map]
      congr 1
      apply List.map_congr_left
      intro i hi
      simp only [Function.comp_apply]
      congr 1
      omega

/-- Claim C10 (confirmed, spec-modelled): `get_brands` fails exactly when the
12-byte `ftyp` header (size, type, major brand) is unreadable or the type
tag is not `ftyp`; otherwise it returns the major brand followed by the
compatible brands in on-disk order, truncating to the tags that are fully
readable (the brands gathered so far) rather than failing. -/
theorem get_brands_spec (data : List UInt8) :
    ((∃ e, get_brands data = .error e) ↔
      (data.length < 12 ∨ bytesAt data 4 4 ≠ FTYP_TAG)) ∧
    (12 ≤ data.length → bytesAt data 4 4 = FTYP_TAG → data.length < 16 →
      get_brands data = .ok [bytesAt data 8 4]) ∧
    (16 ≤ data.length → bytesAt data 4 4 = FTYP_TAG →
      get_brands data =
        .ok (bytesAt data 8 4 ::
          (List.range (min ((beU32 (bytesAt data 0 4) - 16) / 4)
              ((data.length - 16) / 4))).map
            (fun i => bytesAt data (16 + 4 * i) 4))) := by
  unfold get_brands
  rcases hr1 : readExact data 0 4 with ⟨o1, q1⟩
  cases o1 with
  | none =>
    obtain ⟨hl, -⟩ := readExact_eq_none_iff.mp hr1
    refine ⟨⟨fun _ => Or.inl (by omega), fun _ => ⟨.ftypHeaderUnreadable, rfl⟩⟩,
      fun h12 => absurd h12 (by omega), fun h16 => absurd h16 (by omega)⟩
  | some bs0 =>
    obtain ⟨hle0, hbs0, hq1⟩ := readExact_eq_some_iff.mp hr1
    subst hbs0; subst hq1
    simp only []
    rcases hr2 : readExact data (0 + 4) 4 with ⟨o2, q2⟩
    cases o2 with
    | none =>
      obtain ⟨hl, -⟩ := readExact_eq_none_iff.mp hr2
      refine ⟨⟨fun _ => Or.inl (by omega), fun _ => ⟨.ftypHeaderUnreadable, rfl⟩⟩,
        fun h12 => absurd h12 (by omega), fun h16 => absurd h16 (by omega)⟩
    | some bs4 =>
      obtain ⟨hle4, hbs4, hq2⟩ := readExact_eq_some_iff.mp hr2
      subst hbs4; subst hq2
      simp only []
      rcases hr3 : readExact data (0 + 4 + 4) 4 with ⟨o3, q3⟩
      cases o3 with
      | none =>
        obtain ⟨hl, -⟩ := readExact_eq_none_iff.mp hr3
        refine ⟨⟨fun _ => Or.inl (by omega), fun _ => ⟨.ftypHeaderUnreadable, rfl⟩⟩,
          fun h12 => absurd h12 (by omega), fun h16 => absurd h16 (by omega)⟩
      | some bs8 =>
        obtain ⟨hle8, hbs8, hq3⟩ := readExact_eq_some_iff.mp hr3
        subst hbs8; subst hq3
        simp only []
        have h12 : 12 ≤ data.length := by omega
        simp only [show (0 : Nat) + 4 = 4 by rfl, show (0:Nat) + 4 + 4 = 8 by rfl]
        by_cases hft : bytesAt data 4 4 = FTYP_TAG
        swap
        · rw [if_pos (by simpa using hft)]
          exact ⟨⟨fun _ => Or.inr hft, fun _ => ⟨.notFtyp, rfl⟩⟩,
            fun _ hft2 => absurd hft2 hft, fun _ hft2 => absurd hft2 hft⟩
        · rw [if_neg (by simpa using hft)]
          rcases hr4 : readExact data (0 + 4 + 4 + 4) 4 with ⟨o4, q4⟩
          cases o4 with
          | none =>
            obtain ⟨hl, -⟩ := readExact_eq_none_iff.mp hr4
            refine ⟨⟨?_, ?_⟩, fun _ _ _ => rfl, fun h16 => absurd h16 (by omega)⟩
            · rintro ⟨e, he⟩
              exact absurd he (by simp)
            · rintro (h | h)
              · omega
              · exact absurd hft h
          | some bsm =>
            obtain ⟨hle16, -, hq4⟩ := readExact_eq_some_iff.mp hr4
            subst hq4
            simp only []
            refine ⟨⟨?_, ?_⟩, fun _ _ h16 => absurd hle16 (by omega), fun _ _ => ?_⟩
            · rintro ⟨e, he⟩
              exact absurd he (by simp)
            · rintro (h | h)
              · omega
              · exact absurd hft h
            · rw [read_brands_loop_eq data ((beU32 (bytesAt data 0 4) - 16) / 4)
                (0 + 4 + 4 + 4 + 4)]

/-- Synthetic `ftyp` box from the spec's test vector: size 24, major brand
`crx2`, minor version 0, compatible brands `iso2` and `crx `. -/
def ftypEx : List UInt8 :=
  [0, 0, 0, 24, 102, 116, 121, 112, 99, 114, 120, 50, 0, 0, 0, 0,
   105, 115, 111, 50, 99, 114, 120, 32]

/-- Claim C10 witness: on the synthetic `ftyp` example (major `crx2`,
compatibles `iso2`, `crx `), `get_brands` returns the full ordered list
`[crx2, iso2, crx ]`. -/
theorem get_brands_spec_witness :
    get_brands ftypEx =
      .ok (bytesAt ftypEx 8 4 ::
        (List.range (min ((beU32 (bytesAt ftypEx 0 4) - 16) / 4)
            ((ftypEx.length - 16) / 4))).map
          (fun i => bytesAt ftypEx (16 + 4 * i) 4)) ∧
    get_brands ftypEx =
      .ok [[99, 114, 120, 50], [105, 115, 111, 50], [99, 114, 120, 32]] :=
  ⟨(get_brands_spec ftypEx).2.2 (by decide) (by decide), by rfl⟩

theorem getD_set_self (l : List Nat) (i v : Nat) (h : i < l.length) :
    (l.set i v).getD i 0 = v := by
  simp [List.getD_eq_getElem?_getD, List.getElem?_set_eq h]

theorem getD_set_ne (l : List Nat) (i j v : Nat) (h : i ≠ j) :
    (l.set i v).getD j 0 = l.getD j 0 := by
  simp [List.getD_eq_getElem?_getD, List.getElem?_set_ne h]

/-- Value the source's per-pixel `match bytes_per_pixel` stores for column
`c` of a row whose bytes are `rd`: the byte itself for one byte per pixel,
the little-endian `u16` of the two bytes at `c * bpp` otherwise. -/
def pixel_value (rd : List UInt8) (bpp c : Nat) : Nat :=
  if bpp = 1 then (rd.getD (c * bpp) 0).toNat
  else leU16 (rd.getD (c * bpp) 0) (rd.getD (c * bpp + 1) 0)

theorem decode_cols_spec (rd : List UInt8) (bpp width row : Nat)
    (hbpp : bpp = 1 ∨ bpp = 2) :
    ∀ (n col : Nat) (image : List Nat),
    col + n = width → row * width + width ≤ image.length →
    ∃ img2, decode_cols rd bpp width row n col image = .ok img2 ∧
      img2.length = image.length ∧
      (∀ c, col ≤ c → c < width →
        img2.getD (row * width + c) 0 = pixel_value rd bpp c) ∧
      (∀ idx, (idx < row * width + col ∨ row * width + width ≤ idx) →
        img2.getD idx 0 = image.getD idx 0) := by
  intro n
  induction n with
  | zero =>
    intro col image hcol hsz
    refine ⟨image, by rw [decode_cols], rfl, ?_, fun idx _ => rfl⟩
    intro c hc1 hc2
    omega
  | succ n ih =>
    intro col image hcol hsz
    have hidx : row * width + col < image.length := by omega
    rcases hbpp with hb | hb
    all_goals subst hb
    · obtain ⟨img2, he, hlen, hvals, hunch⟩ :=
        ih (col + 1) (image.set (row * width + col) ((rd.getD (col * 1) 0).toNat))
          (by omega) (by rw [List.length_set]; exact hsz)
      refine ⟨img2, ?_, by rw [hlen, List.length_set], ?_, ?_⟩
      · rw [decode_cols]
        exact he
      · intro c hc1 hc2
        rcases Nat.eq_or_lt_of_le hc1 with hceq | hlt
        · rw [← hceq]
          rw [hunch (row * width + col) (Or.inl (by omega))]
          rw [getD_set_self _ _ _ hidx]
          simp [pixel_value]
        · exact hvals c hlt hc2
      · intro idx hor
        rw [hunch idx (by omega)]
        exact getD_set_ne _ _ _ _ (by omega)
    · obtain ⟨img2, he, hlen, hvals, hunch⟩ :=
        ih (col + 1)
          (image.set (row * width + col)
            (leU16 (rd.getD (col * 2) 0) (rd.getD (col * 2 + 1) 0)))
          (by omega) (by rw [List.length_set]; exact hsz)
      refine ⟨img2, ?_, by rw [hlen, List.length_set], ?_, ?_⟩
      · rw [decode_cols]
        exact he
      · intro c hc1 hc2
        rcases Nat.eq_or_lt_of_le hc1 with hceq | hlt
        · rw [← hceq]
          rw [hunch (row * width + col) (Or.inl (by omega))]
          rw [getD_set_self _ _ _ hidx]
          simp [pixel_value]
        · exact hvals c hlt hc2
      · intro idx hor
        rw [hunch idx (by omega)]
        exact getD_set_ne _ _ _ _ (by omega)

theorem decode_rows_spec (buf : List UInt8) (bpp width : Nat)
    (hbpp : bpp = 1 ∨ bpp = 2) :
    ∀ (n r0 p0 : Nat) (image imgF : List Nat) (pF : Nat),
    (r0 + n) * width ≤ image.length →
    decode_rows buf (width * bpp) bpp width n r0 p0 image = (.ok imgF, pF) →
    imgF.length = image.length ∧
    (∀ k c, k < n → c < width →
      imgF.getD ((r0 + k) * width + c) 0 =
        pixel_value (bytesAt buf (p0 + k * (width * bpp)) (width * bpp)) bpp c) ∧
    (∀ idx, idx < r0 * width → imgF.getD idx 0 = image.getD idx 0) := by
  intro n
  induction n with
  | zero =>
    intro r0 p0 image imgF pF hsz h
    rw [decode_rows] at h
    simp only [Prod.mk.injEq, Except.ok.injEq] at h
    obtain ⟨h1, -⟩ := h
    subst h1
    exact ⟨rfl, fun k c hk _ => absurd hk (by omega), fun idx _ => rfl⟩
  | succ n ih =>
    intro r0 p0 image imgF pF hsz h
    have hmul1 : (r0 + (n + 1)) * width =
        r0 * width + width + n * width := by ring
    have hmul2 : (r0 + 1 + n) * width = r0 * width + width + n * width := by ring
    have hmul3 : (r0 + 1) * width = r0 * width + width := by ring
    rw [decode_rows] at h
    rcases hre : readExact buf p0 (width * bpp) with ⟨o, q⟩
    rw [hre] at h
    cases o with
    | none => simp at h
    | some rd =>
      obtain ⟨hle, hrd, hq⟩ := readExact_eq_some_iff.mp hre
      subst hrd; subst hq
      simp only [] at h
      obtain ⟨img2, he, hlen2, hvals2, hunch2⟩ :=
        decode_cols_spec (bytesAt buf p0 (width * bpp)) bpp width r0 hbpp
          width 0 image (by omega) (by omega)
      rw [he] at h
      obtain ⟨hlenF, hvalsF, hunchF⟩ :=
        ih (r0 + 1) (p0 + width * bpp) img2 imgF pF (by omega) h
      refine ⟨hlenF.trans hlen2, ?_, ?_⟩
      · intro k c hk hc
        cases k with
        | zero =>
          rw [show (r0 + 0) * width = r0 * width by ring,
            show p0 + 0 * (width * bpp) = p0 by ring]
          rw [hunchF (r0 * width + c) (by omega)]
          exact hvals2 c (Nat.zero_le c) hc
        | succ j =>
          have := hvalsF j c (by omega) hc
          rw [show (r0 + 1 + j) * width = (r0 + (j + 1)) * width by ring] at this
          rw [show p0 + width * bpp + j * (width * bpp) =
            p0 + (j + 1) * (width * bpp) by ring] at this
          exact this
      · intro idx hidx
        rw [hunchF idx (by omega)]
        exact hunch2 idx (Or.inl (by omega))

/-- Claim C6 (confirmed): in non-dummy mode, on success the output is a flat
row-major buffer with pixel `(r, c)` at index `r * width + c`; with one byte
per pixel the value is the sample byte as-is, and with two bytes per pixel it
is the little-endian `u16` of the two consecutive sample bytes at
`pos + r * (width * bpp) + c * bpp`. -/
theorem decode_raw_image_pixel_values (buf : List UInt8) (pos : Nat)
    (hd : CrawHeader) (bpp : Nat) (img : List Nat) (p2 : Nat) (r c : Nat)
    (hb : (hd.bit_depth + 7) / 8 = bpp) (hbpp : bpp = 1 ∨ bpp = 2)
    (h : decode_raw_image buf pos hd false = (.ok img, p2))
    (hrh : r < hd.height) (hcw : c < hd.width) :
    img.getD (r * hd.width + c) 0 =
      if bpp = 1 then (buf.getD (pos + r * (hd.width * bpp) + c * bpp) 0).toNat
      else leU16 (buf.getD (pos + r * (hd.width * bpp) + c * bpp) 0)
             (buf.getD (pos + r * (hd.width * bpp) + c * bpp + 1) 0) := by
  simp only [decode_raw_image, alloc_image_plain, Bool.false_eq_true, if_false,
    hb] at h
  obtain ⟨hlen, hvals, -⟩ :=
    decode_rows_spec buf bpp hd.width hbpp hd.height 0 pos
      (List.replicate (hd.width * hd.height) 0) img p2
      (by rw [List.length_replicate, Nat.zero_add]
          exact Nat.le_of_eq (Nat.mul_comm _ _)) h
  have hv := hvals r c hrh hcw
  rw [Nat.zero_add] at hv
  rw [hv]
  unfold pixel_value
  rcases hbpp with hb1 | hb2
  · subst hb1
    rw [if_pos rfl, if_pos rfl]
    rw [bytesAt_getD buf (pos + r * (hd.width * 1)) (hd.width * 1) (c * 1) 0
      (by omega)]
  · subst hb2
    rw [if_neg (by omega), if_neg (by omega)]
    rw [bytesAt_getD buf (pos + r * (hd.width * 2)) (hd.width * 2) (c * 2) 0
      (by omega)]
    rw [bytesAt_getD buf (pos + r * (hd.width * 2)) (hd.width * 2) (c * 2 + 1) 0
      (by omega)]
    rw [show pos + r * (hd.width * 2) + (c * 2 + 1) =
      pos + r * (hd.width * 2) + c * 2 + 1 by omega]

/-- Claim C6 witness: the spec's little-endian test vector — a one-pixel
16-bit image whose sample bytes are `[0x34, 0x12]` decodes to `0x1234`
(4660), the little-endian `u16`. -/
theorem decode_raw_image_pixel_values_witness :
    ([4660] : List Nat).getD (0 * 1 + 0) 0 =
      if (2 : Nat) = 1
      then ((([0x34, 0x12] : List UInt8).getD (0 + 0 * (1 * 2) + 0 * 2) 0).toNat)
      else leU16 (([0x34, 0x12] : List UInt8).getD (0 + 0 * (1 * 2) + 0 * 2) 0)
             (([0x34, 0x12] : List UInt8).getD (0 + 0 * (1 * 2) + 0 * 2 + 1) 0) :=
  decode_raw_image_pixel_values [0x34, 0x12] 0
    { width := 1, height := 1, bit_depth := 16, components := 1,
      component_bit_depth := 0 } 2 [4660] 2 0 0 (by decide)
    (Or.inr rfl) (by rfl) (by decide) (by decide)

/-- Claim C9 (confirmed): when decoding without TIFF metadata succeeds, the
returned image carries the fixed fallback camera (`make = clean_make =
"Canon"`, `model = clean_model = "EOS CR3"`), the neutral white-balance
coefficients `(1, 1, 1, NaN)`, and the width and height of the `CRAW` header
located by the box walker; the absence of TIFF metadata is never itself a
failure (the fallback is taken instead of erroring). -/
theorem image_no_tiff_spec (buf : List UInt8) (dummy : Bool) (img : RawImage)
    (h : image_no_tiff buf dummy = .ok img) :
    img.camera.make = "Canon" ∧ img.camera.clean_make = "Canon" ∧
    img.camera.model = "EOS CR3" ∧ img.camera.clean_model = "EOS CR3" ∧
    img.wb_coeffs = (F32.val 1, F32.val 1, F32.val 1, F32.nan) ∧
    ∃ hd pos, find_craw_box buf 0 none = (.ok (some hd), pos) ∧
      img.width = hd.width ∧ img.height = hd.height := by
  unfold image_no_tiff at h
  rcases hfc : find_craw_box buf 0 none with ⟨res, pos⟩
  rw [hfc] at h
  cases res with
  | error e =>
    simp at h
  | ok o =>
    cases o with
    | none =>
      simp at h
    | some hd =>
      simp only [] at h
      rcases hdr : decode_raw_image buf pos hd dummy with ⟨dres, p2⟩
      rw [hdr] at h
      cases dres with
      | error e =>
        simp at h
      | ok image =>
        simp only [ok_image, Except.ok.injEq] at h
        subst h
        exact ⟨rfl, rfl, rfl, rfl, rfl, hd, pos, rfl, rfl, rfl⟩

/-- The `CRAW` header carried by `buf36`. -/
def hdrEx : CrawHeader :=
  { width := 1, height := 1, bit_depth := 8, components := 1,
    component_bit_depth := 0 }

/-- The image produced by decoding `buf36` in dummy mode without TIFF
metadata. -/
def imgEx : RawImage :=
  { width := 1, height := 1,
    wb_coeffs := (F32.val 1, F32.val 1, F32.val 1, F32.nan),
    data := [0],
    camera := { make := "Canon", clean_make := "Canon",
                model := "EOS CR3", clean_model := "EOS CR3", hints := [] } }

/-- Claim C9 witness: decoding the minimal `CRAW` container `buf36` without
TIFF metadata succeeds and exhibits the fallback camera, neutral
white-balance coefficients and header dimensions. -/
theorem image_no_tiff_spec_witness :
    imgEx.camera.make = "Canon" ∧ imgEx.camera.clean_make = "Canon" ∧
    imgEx.camera.model = "EOS CR3" ∧ imgEx.camera.clean_model = "EOS CR3" ∧
    imgEx.wb_coeffs = (F32.val 1, F32.val 1, F32.val 1, F32.nan) ∧
    ∃ hd pos, find_craw_box buf36 0 none = (.ok (some hd), pos) ∧
      imgEx.width = hd.width ∧ imgEx.height = hd.height := by
  apply image_no_tiff_spec buf36 true imgEx
  have h1 := find_craw_trace_complete 6 buf36 0 none (by omega) (by decide)
  have h2 : find_craw_trace buf36 6 0 none =
      some (((Except.ok (some hdrEx) : Except Cr3Error (Option CrawHeader)), 36),
            [(0, none)]) := by
    rfl
  rw [h2] at h1
  simp only [Option.map_some', Option.some.injEq] at h1
  unfold image_no_tiff
  rw [← h1]
  rfl

end Cr3
